import Mathlib

/-
Shallow embedding of the multiworker orchestration engine
(src/multiworker/openai_calls.py, src/multiworker/orchestrator.py,
src/multiworker/types.py) in Lean 4.

Modelling conventions:
- Python floats (timestamps, delays, retry hints) are modelled as exact
  rationals (ℚ).  Python ints are modelled as ℤ (they are unbounded).
- A remote response object (the SDK response) is modelled by `Resp`, with
  the fields read by `_extract_output_text` / `_extract_usage`:
  `output_text` (optional string attribute), `output` (list of items with
  content blocks), `usage` (see `UsageRaw`), and `str` (the value of
  Python's `str(resp)` fallback).
- A raised remote-call failure is modelled by `Err`: its message text
  (`str(e)`) and the value of
  `e.response.headers.get("retry-after") or e.response.headers.get("Retry-After")`
  (absent when there is no response / no header).
- Python's `text.strip()` is modelled by `pyStrip` (drop ASCII whitespace
  from both ends of the character list).
- The asyncio side of `run_turn` is embedded functionally: the environment
  chooses, for every worker and for the synthesis stage, the settled result
  of its retry-wrapped remote call (`Except Err Resp`), and `run_turn`
  computes the terminal `AgentState`s, the per-turn token accumulators, the
  synthesis input, the merged running totals and the returned final answer,
  exactly as the Python code does after its join barrier.
-/

namespace MW

/- Token usage triple, as produced by `_extract_usage` and accumulated into
`tokens_turn` / `config.RUNNING_TOKENS` (dicts with keys input/output/total). -/
structure Tokens where
  input : Int
  output : Int
  total : Int
deriving DecidableEq, Repr

def Tokens.zero : Tokens := ⟨0, 0, 0⟩

def Tokens.add (a b : Tokens) : Tokens :=
  ⟨a.input + b.input, a.output + b.output, a.total + b.total⟩

/- Shape of `resp.usage` as read by `_extract_usage`:
`fields i o t` models a usage object/dict whose `input_tokens` /
`output_tokens` / `total_tokens` entries are present (`some`) or absent
(`none`); `missing` models `resp.usage` being `None` (so `usage = {}`);
`malformed` models any access that raises inside the `try` block
(non-numeric values, objects without `.get`, ...), which the code turns
into all-zero usage. -/
inductive UsageRaw where
  | missing : UsageRaw
  | malformed : UsageRaw
  | fields (input_tokens output_tokens total_tokens : Option Int) : UsageRaw
deriving DecidableEq, Repr

/- Embeds `_extract_usage` (openai_calls.py).  Missing fields read as 0
via the `getattr(...) or usage.get(..., 0)` chain; a falsy (absent or zero)
total is recomputed as input + output; any exception yields zeros. -/
def extract_usage (u : UsageRaw) : Tokens :=
  match u with
  | .missing => ⟨0, 0, 0⟩
  | .malformed => ⟨0, 0, 0⟩
  | .fields i o t =>
    let it := i.getD 0
    let ot := o.getD 0
    let tt0 := t.getD 0
    let tt := if tt0 = 0 then it + ot else tt0
    ⟨it, ot, tt⟩

/- Content block of a response output item (`block.type`, `block.text`). -/
structure Block where
  type : String
  text : String
deriving DecidableEq, Repr

/- Output item of a response (`item.content`). -/
structure OutItem where
  content : List Block
deriving DecidableEq, Repr

/- Model of the SDK response object, restricted to the fields the code
reads.  `str` is the value of Python's `str(resp)`. -/
structure Resp where
  output_text : Option String
  output : List OutItem
  usage : UsageRaw
  str : String
deriving DecidableEq, Repr

/- Characters matched by the regex class `\s` and stripped by Python's
`str.strip()` (ASCII range). -/
def isSpaceChar (c : Char) : Bool :=
  c = ' ' || c = '\t' || c = '\n' || c = '\r' || c.toNat = 11 || c.toNat = 12

/- Embeds Python's `text.strip()`: drop whitespace from both ends. -/
def stripChars (cs : List Char) : List Char :=
  ((cs.dropWhile isSpaceChar).reverse.dropWhile isSpaceChar).reverse

def pyStrip (s : String) : String := ⟨stripChars s.data⟩

/- Embeds the chunk-collection fallback of `_extract_output_text`. -/
def extract_chunks (r : Resp) : List String :=
  (r.output.map (fun item =>
    item.content.filterMap (fun b =>
      if b.type = "output_text" then some b.text else none))).flatten

/- Embeds `_extract_output_text` (openai_calls.py): prefer a non-blank
`resp.output_text`, else join the `output_text` blocks, else `str(resp)`. -/
def extract_output_text (r : Resp) : String :=
  let fromChunks :=
    let chunks := extract_chunks r
    if chunks.isEmpty then r.str else pyStrip (String.join chunks)
  match r.output_text with
  | some t => if pyStrip t ≠ "" then pyStrip t else fromChunks
  | none => fromChunks

/- Model of a raised remote-call failure: `msg` is `str(e)`, `retryAfter`
is the retry-after header value when a response with that header is
attached to the exception. -/
structure Err where
  msg : String
  retryAfter : Option String
deriving DecidableEq, Repr

def digitVal (c : Char) : Nat := c.toNat - 48

/- Numeric value of a digit string, most significant digit first. -/
def digitsToNat (cs : List Char) : Nat :=
  cs.foldl (fun a c => a * 10 + digitVal c) 0

/- Exact value of a parsed decimal numeral: integer-part value,
fraction-part value, and number of fraction digits.  Keeping the three
components as naturals makes concrete parses kernel-decidable; the
rational value is recovered by `DecNum.toRat`. -/
structure DecNum where
  ip : Nat
  fp : Nat
  flen : Nat
deriving DecidableEq, Repr

def DecNum.toRat (d : DecNum) : ℚ :=
  (d.ip : ℚ) + (d.fp : ℚ) / (10 : ℚ) ^ d.flen

/- Signed decimal numeral, the result of `float(...)` on a plain decimal
string. -/
structure SignedDec where
  neg : Bool
  mag : DecNum
deriving DecidableEq, Repr

def SignedDec.toRat (s : SignedDec) : ℚ :=
  if s.neg then -s.mag.toRat else s.mag.toRat

/- Decimal parser modelling Python's `float(...)` on the plain decimal
forms that a Retry-After header can carry: digits with an optional
fractional part (`"12"`, `"12."`, `".5"`, `"12.5"`).  Any other text
yields `none`, modelling `float(ra)` raising (which the code swallows). -/
def parseUnsignedDec (cs : List Char) : Option DecNum :=
  let ip := cs.takeWhile Char.isDigit
  let rest := cs.dropWhile Char.isDigit
  match rest with
  | [] => if ip.isEmpty then none else some ⟨digitsToNat ip, 0, 0⟩
  | '.' :: rest2 =>
    let fp := rest2.takeWhile Char.isDigit
    let rest3 := rest2.dropWhile Char.isDigit
    if rest3.isEmpty && (!ip.isEmpty || !fp.isEmpty) then
      some ⟨digitsToNat ip, digitsToNat fp, fp.length⟩
    else none
  | _ => none

/- Models `float(ra)`: optional surrounding whitespace, optional sign,
then a plain decimal numeral. -/
def parseFloat? (s : String) : Option SignedDec :=
  let cs := ((s.data.dropWhile isSpaceChar).reverse.dropWhile isSpaceChar).reverse
  match cs with
  | '+' :: rest => (parseUnsignedDec rest).map (fun d => ⟨false, d⟩)
  | '-' :: rest => (parseUnsignedDec rest).map (fun d => ⟨true, d⟩)
  | cs => (parseUnsignedDec cs).map (fun d => ⟨false, d⟩)

/- Literal part of the regex `try again in\s+([0-9]+(?:\.[0-9]+)?)s`,
spelled as an explicit lowercase character list. -/
def litTryAgainIn : List Char :=
  ['t', 'r', 'y', ' ', 'a', 'g', 'a', 'i', 'n', ' ', 'i', 'n']

/- Case-insensitive literal matcher: consumes `lit` (given lowercase) from
the front of the input, comparing lowercased characters. -/
def matchLitCI : List Char → List Char → Option (List Char)
  | [], cs => some cs
  | _ :: _, [] => none
  | l :: ls, c :: cs => if c.toLower = l then matchLitCI ls cs else none

/- Embeds one anchored match of the regex
`try again in\s+([0-9]+(?:\.[0-9]+)?)s` (IGNORECASE) at the head of the
input, returning the captured seconds value exactly.  Greedy matching
without backtracking is exact for this pattern (every backtracked
continuation would place a digit where a non-digit is required). -/
def matchTryAgainAt (cs : List Char) : Option DecNum :=
  match matchLitCI litTryAgainIn cs with
  | none => none
  | some rest =>
    let sp := rest.takeWhile isSpaceChar
    let rest1 := rest.dropWhile isSpaceChar
    if sp.isEmpty then none else
    let ds := rest1.takeWhile Char.isDigit
    let rest2 := rest1.dropWhile Char.isDigit
    if ds.isEmpty then none else
    match rest2 with
    | '.' :: rest3 =>
      let fs := rest3.takeWhile Char.isDigit
      let rest4 := rest3.dropWhile Char.isDigit
      if fs.isEmpty then none
      else
        match rest4 with
        | c :: _ =>
          if c.toLower = 's' then
            some ⟨digitsToNat ds, digitsToNat fs, fs.length⟩
          else none
        | [] => none
    | c :: _ => if c.toLower = 's' then some ⟨digitsToNat ds, 0, 0⟩ else none
    | [] => none

/- Leftmost-match scan, as `re.search` does. -/
def searchTryAgain : List Char → Option DecNum
  | [] => none
  | c :: cs =>
    match matchTryAgainAt (c :: cs) with
    | some q => some q
    | none => searchTryAgain cs

/- Embeds `re.search(r"try again in\s+([0-9]+(?:\.[0-9]+)?)s", msg, re.IGNORECASE)`
followed by `float(m.group(1))`, returning the parsed seconds value. -/
def parseTryAgain (s : String) : Option DecNum :=
  searchTryAgain s.data

/- Embeds the delay computation of `_request_with_retries` for one failure:
start from `config.RETRY_DELAY_SEC`, raise to a parsable non-empty
Retry-After header, then raise to `math.ceil` of a "try again in Xs" text
hint.  There is no clamping step in the source. -/
def computeDelay (base : ℚ) (e : Err) : ℚ :=
  let d := base
  let d :=
    match e.retryAfter with
    | some ra =>
      if ra ≠ "" then
        match parseFloat? ra with
        | some v => max d v.toRat
        | none => d
      else d
    | none => d
  match parseTryAgain e.msg with
  | some q => max d (↑(⌈q.toRat⌉ : ℤ) : ℚ)
  | none => d

/- Retry telemetry, modelling the module globals `_RETRY_COUNT`,
`_RETRY_EVENTS` and `_RETRY_DELAYS` restricted to a single call
(`get_retry_stats(reset=True)` zeroes them at turn start). -/
structure RetryStats where
  retriesTotal : Nat
  retryEvents : Nat
  delays : List ℚ
deriving DecidableEq, Repr

/- Settled outcome of `_request_with_retries`: the returned value or the
finally-raised error, the index of the last attempt actually performed,
and the telemetry recorded along the way. -/
structure RetryResult (α : Type) where
  result : Except Err α
  attemptsMade : Nat
  stats : RetryStats

/- Loop body of `_request_with_retries`.  `attempt` is the 1-based attempt
index, `remaining` is `RETRY_MAX - attempt` (so `remaining > 0` iff
`attempt < RETRY_MAX`), `anyRetry` is the `any_retry_this_call` flag, and
`att` gives the environment-chosen outcome of each attempt. -/
def retryAux {α : Type} (base : ℚ) (att : Nat → Except Err α) :
    Nat → Nat → Bool → RetryStats → RetryResult α
  | attempt, remaining, anyRetry, stats =>
    match att attempt with
    | Except.ok v => ⟨Except.ok v, attempt, stats⟩
    | Except.error e =>
      match remaining with
      | 0 => ⟨Except.error e, attempt, stats⟩
      | Nat.succ r =>
        retryAux base att (attempt + 1) r true
          ⟨stats.retriesTotal + 1,
           stats.retryEvents + (if anyRetry then 0 else 1),
           stats.delays ++ [computeDelay base e]⟩

/- Embeds `_request_with_retries` (openai_calls.py) with
`retryMax = config.RETRY_MAX` and `base = config.RETRY_DELAY_SEC`, run
against fresh telemetry.  Faithful for `retryMax ≥ 1` (the configuration
layer clamps `RETRY_MAX` into 1..10). -/
def request_with_retries {α : Type} (retryMax : Nat) (base : ℚ)
    (att : Nat → Except Err α) : RetryResult α :=
  retryAux base att 1 (retryMax - 1) false ⟨0, 0, []⟩

/- Conversation message, as the `{"role": ..., "content": ...}` dicts in
`history`. -/
structure Msg where
  role : String
  content : String
deriving DecidableEq, Repr

/- Embeds the `AgentState` dataclass (types.py). -/
structure AgentState where
  name : String
  model : String
  startedAt : ℚ
  endedAt : Option ℚ
  ok : Option Bool
  error : Option String
  outputText : Option String
deriving DecidableEq, Repr

/- Worker role name `config.WORKER_NAMES[i]`, i.e. `f"Worker-{i+1}"`. -/
def workerName (i : Nat) : String := "Worker-" ++ toString (i + 1)

/- Freshly created `AgentState(name=..., model=...)`: pending, no end
timestamp, no error, no output. -/
def pendingState (name modelName : String) (t0 : ℚ) : AgentState :=
  ⟨name, modelName, t0, none, none, none, none⟩

/- Terminal `AgentState` a worker task leaves behind (`_run_worker` in
orchestrator.py): on success `ok = True` with the extracted output text,
on failure `ok = False` with `error = str(e)`; either way the `finally`
block stamps `ended_at`. -/
def finishWorker (name modelName : String) (t0 t1 : ℚ)
    (res : Except Err Resp) : AgentState :=
  match res with
  | Except.ok r =>
    { name := name, model := modelName, startedAt := t0, endedAt := some t1,
      ok := some true, error := none,
      outputText := some (extract_output_text r) }
  | Except.error e =>
    { name := name, model := modelName, startedAt := t0, endedAt := some t1,
      ok := some false, error := some e.msg, outputText := none }

/- Per-turn usage contribution of one worker: `_run_worker` adds the
extracted usage to `tokens_turn` only on the success path. -/
def workerUsage (res : Except Err Resp) : Tokens :=
  match res with
  | Except.ok r => extract_usage r.usage
  | Except.error _ => Tokens.zero

/- Embeds the `stitched` string of `call_synth` (openai_calls.py):
`"\n\n".join(f"### {name}\n{text.strip()}" for name, text in drafts.items())`. -/
def call_synth_stitched (drafts : List (String × String)) : String :=
  String.intercalate "\n\n"
    (drafts.map (fun p => "### " ++ p.1 ++ "\n" ++ pyStrip p.2))

/- Embeds the `synth_input` of `call_synth`: the history plus one
assistant message carrying the stitched drafts. -/
def call_synth_input (history : List Msg) (drafts : List (String × String)) :
    List Msg :=
  history ++ [⟨"assistant", "WORKER DRAFTS:\n" ++ call_synth_stitched drafts⟩]

/- Environment of one turn: the configuration values read by `run_turn`,
the conversation history, the settled outcome of every worker's
retry-wrapped call and of the synthesis call, and the clock values at
which states are created and stamped. -/
structure TurnEnv where
  nWorkers : Nat
  modelName : String
  history : List Msg
  wres : Nat → Except Err Resp
  sres : Except Err Resp
  t0 : ℚ
  wEnd : Nat → ℚ
  sStart : ℚ
  sEnd : ℚ

/- Terminal `AgentState` the synthesis task leaves behind (`_do_synth` in
orchestrator.py): on success `ok = True` with the extracted final text; on
failure `ok = False`, `error = str(e)` and `output_text = ""`; either way
the `finally` block stamps `ended_at`.  `started_at` was reassigned to the
post-join clock value before the task was launched. -/
def finishSynth (modelName : String) (sStart sEnd : ℚ)
    (res : Except Err Resp) : AgentState :=
  match res with
  | Except.ok r =>
    { name := "Synthesizer", model := modelName, startedAt := sStart,
      endedAt := some sEnd, ok := some true, error := none,
      outputText := some (extract_output_text r) }
  | Except.error e =>
    { name := "Synthesizer", model := modelName, startedAt := sStart,
      endedAt := some sEnd, ok := some false, error := some e.msg,
      outputText := some "" }

/- Everything `run_turn` has computed when it returns. -/
structure TurnResult where
  states : List AgentState
  synthState : AgentState
  tokensTurn : Tokens
  runningAfter : Tokens
  stitched : String
  synthInput : List Msg
  finalAnswer : String

/- Embeds `run_turn` (orchestrator.py) after its join barrier has been
passed: worker states are terminal, `tokens_turn` holds the usage of the
succeeded workers plus (on success) the synthesis call, the drafts map is
built from ALL worker states via `st.output_text or ""`, the synthesis
state is terminal, `config.RUNNING_TOKENS` is advanced by `tokens_turn`,
and the function returns `synth_state.output_text or ""`.  The embedding
is total: every failure inside the turn is caught, never raised. -/
def run_turn (env : TurnEnv) (base : Tokens) : TurnResult :=
  let states := (List.range env.nWorkers).map (fun i =>
    finishWorker (workerName i) env.modelName env.t0 (env.wEnd i) (env.wres i))
  let wTokens := (List.range env.nWorkers).foldl
    (fun acc i => acc.add (workerUsage (env.wres i))) Tokens.zero
  let drafts := states.map (fun st => (st.name, st.outputText.getD ""))
  let stitched := call_synth_stitched drafts
  let synthInput := call_synth_input env.history drafts
  let synthState := finishSynth env.modelName env.sStart env.sEnd env.sres
  let tokensTurn :=
    match env.sres with
    | Except.ok r => wTokens.add (extract_usage r.usage)
    | Except.error _ => wTokens
  let runningAfter := base.add tokensTurn
  let finalAnswer := synthState.outputText.getD ""
  ⟨states, synthState, tokensTurn, runningAfter, stitched, synthInput, finalAnswer⟩

/- Chains several turns: the running totals returned by one `run_turn`
are the baseline of the next, as the caller (main.py REPL loop) does with
`config.RUNNING_TOKENS`. -/
def run_turns (base : Tokens) : List TurnEnv → Tokens
  | [] => base
  | e :: rest => run_turns ((run_turn e base).runningAfter) rest

/- Observable snapshots of one task's `AgentState` over a turn, at the
suspension points of the cooperative scheduler (the polls of the Live
loop).  Between the task's creation and the completion of its awaited
remote call the state is pending with no end timestamp (`k + 1` such
observations, at least the initial render); the post-call field writes of
`_run_worker` / `_do_synth` contain no further suspension point (the
`tokens_turn` critical section holds no await, so the uncontended
`asyncio.Lock` acquisition never yields), hence the next observable
snapshot is the terminal, stamped state. -/
def worker_trace (name modelName : String) (t0 : ℚ) (k : Nat)
    (res : Except Err Resp) (t1 : ℚ) : List AgentState :=
  List.replicate (k + 1) (pendingState name modelName t0)
    ++ [finishWorker name modelName t0 t1 res]

/- Allowed outcome transition between consecutive observations: the
outcome may only change while it is still pending; once set it is frozen. -/
def okStep (a b : AgentState) : Prop := a.ok = none ∨ b.ok = a.ok

/- Spec-side definition (for comparison with the code):
"Builds a combined artifact from succeeded workers only (each contributes
its output text, tagged by role name); failed workers contribute
nothing."  This stitches the drafts of the succeeded workers ONLY. -/
def stitched_spec_succeeded_only (env : TurnEnv) (base : Tokens) : String :=
  call_synth_stitched
    ((((run_turn env base).states.filter (fun st => st.ok = some true)).map
      (fun st => (st.name, st.outputText.getD ""))))

/- Specification-level sum: usage of exactly the calls (workers and
synthesis) that succeeded in the turn, summed per field. -/
def succeeded_usage_sum (env : TurnEnv) : Tokens :=
  (((List.range env.nWorkers).filterMap (fun i =>
      match env.wres i with
      | Except.ok r => some (extract_usage r.usage)
      | Except.error _ => none)).foldl Tokens.add Tokens.zero).add
    (match env.sres with
     | Except.ok r => extract_usage r.usage
     | Except.error _ => Tokens.zero)

/- Per-turn token totals of a turn environment (independent of the
running-totals baseline). -/
def turn_tokens (e : TurnEnv) : Tokens := (run_turn e Tokens.zero).tokensTurn

/- Message text carrying a "try again in 99…9s" hint with `k` nines. -/
def ninesMsg (k : Nat) : List Char :=
  litTryAgainIn ++ (' ' :: (List.replicate k '9' ++ ['s']))

/- Concrete material for witnesses and counterexamples. -/
def errBoom : Err := ⟨"boom", none⟩

def respA : Resp := ⟨some "A", [], .fields (some 1) (some 2) none, "respA"⟩

def respB : Resp := ⟨some "B", [], .fields (some 3) (some 4) none, "respB"⟩

def respFinal : Resp := ⟨some "final", [], .fields (some 5) (some 6) none, "respF"⟩

/- Response whose only content is a whitespace `output_text` block: the
extraction pipeline turns it into the empty string. -/
def respBlank : Resp := ⟨some " ", [⟨[⟨"output_text", " "⟩]⟩], .fields none none none, "respW"⟩

/- Turn with 4 workers: workers 1 and 2 succeed with drafts "A" and "B",
workers 3 and 4 fail after retry exhaustion; synthesis succeeds. -/
def envC1 : TurnEnv where
  nWorkers := 4
  modelName := "gpt-5"
  history := [⟨"user", "hi"⟩]
  wres := fun i =>
    if i = 0 then Except.ok respA
    else if i = 1 then Except.ok respB
    else Except.error errBoom
  sres := Except.ok respFinal
  t0 := 0
  wEnd := fun _ => 1
  sStart := 1
  sEnd := 2

/- Turn whose synthesis call fails after retry exhaustion. -/
def envSynthFail : TurnEnv where
  nWorkers := 2
  modelName := "gpt-5"
  history := [⟨"user", "hi"⟩]
  wres := fun _ => Except.ok respA
  sres := Except.error errBoom
  t0 := 0
  wEnd := fun _ => 1
  sStart := 1
  sEnd := 2

/- Turn whose synthesis call succeeds but returns whitespace-only
content. -/
def envBlankSynth : TurnEnv where
  nWorkers := 1
  modelName := "gpt-5"
  history := [⟨"user", "hi"⟩]
  wres := fun _ => Except.ok respA
  sres := Except.ok respBlank
  t0 := 0
  wEnd := fun _ => 1
  sStart := 1
  sEnd := 2

/- Attempt oracle that always fails. -/
def attBoom : Nat → Except Err Resp := fun _ => Except.error errBoom

/- Helper lemmas. -/

theorem Tokens.add_zero (a : Tokens) : a.add Tokens.zero = a := by
  simp [Tokens.add, Tokens.zero]

theorem Tokens.zero_add (a : Tokens) : Tokens.zero.add a = a := by
  simp [Tokens.add, Tokens.zero]

theorem Tokens.add_assoc (a b c : Tokens) :
    (a.add b).add c = a.add (b.add c) := by
  simp only [Tokens.add, Tokens.mk.injEq]
  omega

theorem parseFloat?_empty : parseFloat? "" = none := by decide

theorem base_le_computeDelay (base : ℚ) (e : Err) :
    base ≤ computeDelay base e := by
  obtain ⟨msg, ra⟩ := e
  unfold computeDelay
  have h1 : base ≤ (match ra with
      | some s =>
        if s ≠ "" then
          match parseFloat? s with
          | some v => max base v.toRat
          | none => base
        else base
      | none => base) := by
    rcases ra with _ | s
    · exact le_refl base
    · by_cases hs : s = ""
      · simp [hs]
      · rcases hpf : parseFloat? s with _ | v <;> simp [hs, hpf, le_max_left]
  rcases hpt : parseTryAgain msg with _ | q <;> simp only [hpt]
  · exact h1
  · exact le_trans h1 (le_max_left _ _)

theorem serverHint_le_computeDelay (base : ℚ) (e : Err) (ra : String)
    (v : SignedDec) (h1 : e.retryAfter = some ra)
    (h2 : parseFloat? ra = some v) :
    v.toRat ≤ computeDelay base e := by
  obtain ⟨msg, ra'⟩ := e
  simp only at h1
  subst h1
  have hra : ra ≠ "" := by
    rintro rfl
    rw [parseFloat?_empty] at h2
    cases h2
  unfold computeDelay
  simp only [hra, if_true, h2, ne_eq, not_false_eq_true]
  rcases hpt : parseTryAgain msg with _ | q <;> simp only [hpt]
  · exact le_max_right _ _
  · exact le_trans (le_max_right _ _) (le_max_left _ _)

theorem textHint_le_computeDelay (base : ℚ) (e : Err) (q : DecNum)
    (h : parseTryAgain e.msg = some q) :
    (↑(⌈q.toRat⌉ : ℤ) : ℚ) ≤ computeDelay base e := by
  obtain ⟨msg, ra⟩ := e
  simp only at h
  unfold computeDelay
  simp only [h]
  exact le_max_right _ _

theorem retryAux_eq {α : Type} (base : ℚ) (att : Nat → Except Err α)
    (attempt remaining : Nat) (anyRetry : Bool) (stats : RetryStats) :
    retryAux base att attempt remaining anyRetry stats
      = match att attempt with
        | Except.ok v => ⟨Except.ok v, attempt, stats⟩
        | Except.error e =>
          match remaining with
          | 0 => ⟨Except.error e, attempt, stats⟩
          | Nat.succ r =>
            retryAux base att (attempt + 1) r true
              ⟨stats.retriesTotal + 1,
               stats.retryEvents + (if anyRetry then 0 else 1),
               stats.delays ++ [computeDelay base e]⟩ := by
  rw [retryAux]

theorem retryAux_ok {α : Type} (base : ℚ) (att : Nat → Except Err α)
    (attempt remaining : Nat) (anyRetry : Bool) (stats : RetryStats)
    (v : α) (h : att attempt = Except.ok v) :
    retryAux base att attempt remaining anyRetry stats
      = ⟨Except.ok v, attempt, stats⟩ := by
  rw [retryAux_eq, h]

theorem retryAux_err_zero {α : Type} (base : ℚ) (att : Nat → Except Err α)
    (attempt : Nat) (anyRetry : Bool) (stats : RetryStats)
    (e : Err) (h : att attempt = Except.error e) :
    retryAux base att attempt 0 anyRetry stats
      = ⟨Except.error e, attempt, stats⟩ := by
  rw [retryAux_eq, h]

theorem retryAux_err_succ {α : Type} (base : ℚ) (att : Nat → Except Err α)
    (attempt r : Nat) (anyRetry : Bool) (stats : RetryStats)
    (e : Err) (h : att attempt = Except.error e) :
    retryAux base att attempt (r + 1) anyRetry stats
      = retryAux base att (attempt + 1) r true
          ⟨stats.retriesTotal + 1,
           stats.retryEvents + (if anyRetry then 0 else 1),
           stats.delays ++ [computeDelay base e]⟩ := by
  rw [retryAux_eq, h]

theorem retryAux_retries_attempts {α : Type} (base : ℚ)
    (att : Nat → Except Err α) :
    ∀ (remaining attempt : Nat) (anyRetry : Bool) (stats : RetryStats),
      (retryAux base att attempt remaining anyRetry stats).stats.retriesTotal
          + attempt
        = stats.retriesTotal
          + (retryAux base att attempt remaining anyRetry stats).attemptsMade := by
  intro remaining
  induction remaining with
  | zero =>
    intro attempt anyRetry stats
    cases h : att attempt with
    | ok v => rw [retryAux_ok base att attempt 0 anyRetry stats v h]
    | error e => rw [retryAux_err_zero base att attempt anyRetry stats e h]
  | succ r ih =>
    intro attempt anyRetry stats
    cases h : att attempt with
    | ok v => rw [retryAux_ok base att attempt (r + 1) anyRetry stats v h]
    | error e =>
      rw [retryAux_err_succ base att attempt r anyRetry stats e h]
      have h2 := ih (attempt + 1) true
        ⟨stats.retriesTotal + 1, stats.retryEvents + (if anyRetry then 0 else 1),
         stats.delays ++ [computeDelay base e]⟩
      simp only at h2
      omega

theorem retryAux_delays_length {α : Type} (base : ℚ)
    (att : Nat → Except Err α) :
    ∀ (remaining attempt : Nat) (anyRetry : Bool) (stats : RetryStats),
      (retryAux base att attempt remaining anyRetry stats).stats.delays.length
          + attempt
        = stats.delays.length
          + (retryAux base att attempt remaining anyRetry stats).attemptsMade := by
  intro remaining
  induction remaining with
  | zero =>
    intro attempt anyRetry stats
    cases h : att attempt with
    | ok v => rw [retryAux_ok base att attempt 0 anyRetry stats v h]
    | error e => rw [retryAux_err_zero base att attempt anyRetry stats e h]
  | succ r ih =>
    intro attempt anyRetry stats
    cases h : att attempt with
    | ok v => rw [retryAux_ok base att attempt (r + 1) anyRetry stats v h]
    | error e =>
      rw [retryAux_err_succ base att attempt r anyRetry stats e h]
      have h2 := ih (attempt + 1) true
        ⟨stats.retriesTotal + 1, stats.retryEvents + (if anyRetry then 0 else 1),
         stats.delays ++ [computeDelay base e]⟩
      simp only [List.length_append, List.length_singleton] at h2
      omega

theorem retryAux_delays_sound {α : Type} (base : ℚ)
    (att : Nat → Except Err α) :
    ∀ (remaining attempt : Nat) (anyRetry : Bool) (stats : RetryStats)
      (d : ℚ),
      d ∈ (retryAux base att attempt remaining anyRetry stats).stats.delays →
      d ∈ stats.delays
        ∨ ∃ i e, att i = Except.error e ∧ d = computeDelay base e := by
  intro remaining
  induction remaining with
  | zero =>
    intro attempt anyRetry stats d hd
    cases h : att attempt with
    | ok v =>
      rw [retryAux_ok base att attempt 0 anyRetry stats v h] at hd
      exact Or.inl hd
    | error e =>
      rw [retryAux_err_zero base att attempt anyRetry stats e h] at hd
      exact Or.inl hd
  | succ r ih =>
    intro attempt anyRetry stats d hd
    cases h : att attempt with
    | ok v =>
      rw [retryAux_ok base att attempt (r + 1) anyRetry stats v h] at hd
      exact Or.inl hd
    | error e =>
      rw [retryAux_err_succ base att attempt r anyRetry stats e h] at hd
      rcases ih (attempt + 1) true _ d hd with hmem | hex
      · simp only [List.mem_append, List.mem_singleton] at hmem
        rcases hmem with hmem | rfl
        · exact Or.inl hmem
        · exact Or.inr ⟨attempt, e, h, rfl⟩
      · exact Or.inr hex

theorem matchLitCI_self_append (l rest : List Char)
    (h : ∀ c ∈ l, c.toLower = c) :
    matchLitCI l (l ++ rest) = some rest := by
  induction l with
  | nil => rfl
  | cons a l ih =>
    simp only [List.cons_append, matchLitCI]
    rw [if_pos (h a (by simp))]
    exact ih (fun c hc => h c (by simp [hc]))

theorem takeWhile_space_nines (k : Nat) :
    List.takeWhile isSpaceChar (List.replicate k '9' ++ ['s']) = [] := by
  cases k with
  | zero => decide
  | succ j => simp [List.replicate_succ, List.takeWhile_cons, isSpaceChar]

theorem dropWhile_space_nines (k : Nat) :
    List.dropWhile isSpaceChar (List.replicate k '9' ++ ['s'])
      = List.replicate k '9' ++ ['s'] := by
  cases k with
  | zero => decide
  | succ j => simp [List.replicate_succ, List.dropWhile_cons, isSpaceChar]

theorem takeWhile_digit_nines (k : Nat) :
    List.takeWhile Char.isDigit (List.replicate k '9' ++ ['s'])
      = List.replicate k '9' := by
  induction k with
  | zero => decide
  | succ j ih => simp [List.replicate_succ, List.takeWhile_cons, ih, Char.isDigit]

theorem dropWhile_digit_nines (k : Nat) :
    List.dropWhile Char.isDigit (List.replicate k '9' ++ ['s']) = ['s'] := by
  induction k with
  | zero => decide
  | succ j ih => simp [List.replicate_succ, List.dropWhile_cons, ih, Char.isDigit]

theorem digitsToNat_nines_ge : ∀ (k : Nat) (a : Nat),
    a + k ≤ List.foldl (fun x c => x * 10 + digitVal c) a (List.replicate k '9') := by
  intro k
  induction k with
  | zero => intro a; simp
  | succ j ih =>
    intro a
    rw [List.replicate_succ, List.foldl_cons]
    have h1 := ih (a * 10 + digitVal '9')
    have h9 : digitVal '9' = 9 := by decide
    omega

theorem le_digitsToNat_nines (k : Nat) :
    k ≤ digitsToNat (List.replicate k '9') := by
  have := digitsToNat_nines_ge k 0
  simpa [digitsToNat] using this

theorem matchTryAgainAt_nines (k : Nat) :
    matchTryAgainAt (ninesMsg (k + 1))
      = some ⟨digitsToNat (List.replicate (k + 1) '9'), 0, 0⟩ := by
  unfold ninesMsg matchTryAgainAt
  rw [matchLitCI_self_append litTryAgainIn _ (by decide)]
  simp only [List.takeWhile_cons, List.dropWhile_cons]
  rw [show isSpaceChar ' ' = true from by decide]
  simp only [if_true, takeWhile_space_nines, dropWhile_space_nines,
    takeWhile_digit_nines, dropWhile_digit_nines]
  simp [List.replicate_succ]

theorem parseTryAgain_nines (k : Nat) :
    parseTryAgain ⟨ninesMsg (k + 1)⟩
      = some ⟨digitsToNat (List.replicate (k + 1) '9'), 0, 0⟩ := by
  show searchTryAgain (ninesMsg (k + 1)) = _
  have hm := matchTryAgainAt_nines k
  rw [show ninesMsg (k + 1)
      = 't' :: ('r' :: ('y' :: (' ' :: ('a' :: ('g' :: ('a' :: ('i' :: ('n'
        :: (' ' :: ('i' :: ('n' :: (' ' :: (List.replicate (k + 1) '9'
        ++ ['s']))))))))))))) from rfl] at hm ⊢
  rw [searchTryAgain, hm]

theorem toRat_intOnly (m : Nat) : DecNum.toRat ⟨m, 0, 0⟩ = (m : ℚ) := by
  simp [DecNum.toRat]

theorem foldl_workerUsage (f : Nat → Except Err Resp) :
    ∀ (l : List Nat) (acc : Tokens),
      l.foldl (fun a i => a.add (workerUsage (f i))) acc
        = (l.filterMap (fun i =>
            match f i with
            | Except.ok r => some (extract_usage r.usage)
            | Except.error _ => none)).foldl Tokens.add acc := by
  intro l
  induction l with
  | nil => intro acc; rfl
  | cons i l ih =>
    intro acc
    rw [List.foldl_cons, List.filterMap_cons]
    cases h : f i with
    | ok r =>
      rw [List.foldl_cons, ih]
      simp [workerUsage, h, Tokens.add]
    | error e =>
      rw [ih]
      simp [workerUsage, h, Tokens.add_zero]

theorem foldl_tokens_hoist :
    ∀ (l : List Tokens) (a b : Tokens),
      l.foldl Tokens.add (a.add b) = a.add (l.foldl Tokens.add b) := by
  intro l
  induction l with
  | nil => intro a b; rfl
  | cons x l ih =>
    intro a b
    rw [List.foldl_cons, List.foldl_cons, Tokens.add_assoc, ih]

theorem tokens_sum_cons (t : Tokens) (ts : List Tokens) :
    (t :: ts).foldl Tokens.add Tokens.zero
      = t.add (ts.foldl Tokens.add Tokens.zero) := by
  rw [List.foldl_cons, Tokens.zero_add,
    show t = t.add Tokens.zero from (Tokens.add_zero t).symm]
  rw [foldl_tokens_hoist]
  rw [Tokens.add_zero]

theorem run_turn_tokensTurn_base_free (e : TurnEnv) (b : Tokens) :
    (run_turn e b).tokensTurn = turn_tokens e := rfl

theorem mem_worker_trace (name modelName : String) (t0 : ℚ) (k : Nat)
    (res : Except Err Resp) (t1 : ℚ) (s : AgentState)
    (h : s ∈ worker_trace name modelName t0 k res t1) :
    s = pendingState name modelName t0
      ∨ s = finishWorker name modelName t0 t1 res := by
  unfold worker_trace at h
  rcases List.mem_append.mp h with h1 | h2
  · exact Or.inl (List.eq_of_mem_replicate h1)
  · exact Or.inr (List.mem_singleton.mp h2)

theorem chain_replicate_pending (p f : AgentState) (hp : p.ok = none) :
    ∀ j : Nat, List.Chain' okStep (List.replicate j p ++ [f]) := by
  intro j
  induction j with
  | zero => simp
  | succ i ih =>
    rw [List.replicate_succ, List.cons_append, List.chain'_cons']
    exact ⟨fun b _ => Or.inl hp, ih⟩

theorem run_turn_states (env : TurnEnv) (base : Tokens) :
    (run_turn env base).states
      = (List.range env.nWorkers).map (fun i =>
          finishWorker (workerName i) env.modelName env.t0 (env.wEnd i)
            (env.wres i)) := rfl

theorem run_turn_stitched (env : TurnEnv) (base : Tokens) :
    (run_turn env base).stitched
      = call_synth_stitched
          (((List.range env.nWorkers).map (fun i =>
              finishWorker (workerName i) env.modelName env.t0 (env.wEnd i)
                (env.wres i))).map
            (fun st => (st.name, st.outputText.getD ""))) := rfl

theorem run_turn_synthInput (env : TurnEnv) (base : Tokens) :
    (run_turn env base).synthInput
      = env.history
        ++ [⟨"assistant", "WORKER DRAFTS:\n" ++ (run_turn env base).stitched⟩] := rfl

theorem run_turn_synthState (env : TurnEnv) (base : Tokens) :
    (run_turn env base).synthState
      = finishSynth env.modelName env.sStart env.sEnd env.sres := rfl

theorem run_turn_finalAnswer (env : TurnEnv) (base : Tokens) :
    (run_turn env base).finalAnswer
      = (finishSynth env.modelName env.sStart env.sEnd env.sres).outputText.getD "" := rfl

theorem run_turn_tokensTurn (env : TurnEnv) (base : Tokens) :
    (run_turn env base).tokensTurn
      = match env.sres with
        | Except.ok r =>
          ((List.range env.nWorkers).foldl
            (fun acc i => acc.add (workerUsage (env.wres i))) Tokens.zero).add
            (extract_usage r.usage)
        | Except.error _ =>
          (List.range env.nWorkers).foldl
            (fun acc i => acc.add (workerUsage (env.wres i))) Tokens.zero := rfl

theorem run_turn_runningAfter (env : TurnEnv) (base : Tokens) :
    (run_turn env base).runningAfter = base.add (run_turn env base).tokensTurn := rfl

/- Claim theorems. -/

/-- C1, counterexample: in a 4-worker turn where workers 1 and 2 succeed
with drafts "A" and "B" and workers 3 and 4 fail, the stitched synthesis
artifact the code builds is NOT the artifact made of the 2 successful
drafts only: the failed workers each contribute an empty-bodied section
tagged with their role name (`drafts_map` in `_do_synth` ranges over all
states via `st.output_text or ""`). -/
theorem c1_counterexample :
    (run_turn envC1 Tokens.zero).stitched
        = "### Worker-1\nA\n\n### Worker-2\nB\n\n### Worker-3\n\n\n### Worker-4\n"
  ∧ stitched_spec_succeeded_only envC1 Tokens.zero
        = "### Worker-1\nA\n\n### Worker-2\nB"
  ∧ (run_turn envC1 Tokens.zero).stitched
        ≠ stitched_spec_succeeded_only envC1 Tokens.zero := by
  refine ⟨by decide, by decide, by decide⟩

/-- C1, amended: the synthesis stage builds its combined artifact from ALL
workers, each contributing a section tagged by its role name; a succeeded
worker's section carries its trimmed output text, while a failed worker's
section carries the empty string (its role tag still appears).  The
combined artifact is appended to the history as one assistant message. -/
theorem c1_amended_all_workers_stitched (env : TurnEnv) (base : Tokens) :
    (run_turn env base).stitched
      = call_synth_stitched ((List.range env.nWorkers).map (fun i =>
          (workerName i,
            match env.wres i with
            | Except.ok r => extract_output_text r
            | Except.error _ => "")))
  ∧ (run_turn env base).synthInput
      = env.history
        ++ [⟨"assistant", "WORKER DRAFTS:\n" ++ (run_turn env base).stitched⟩] := by
  constructor
  · rw [run_turn_stitched, List.map_map]
    have hmaps :
        (List.range env.nWorkers).map
            ((fun st => (st.name, st.outputText.getD "")) ∘ fun i =>
              finishWorker (workerName i) env.modelName env.t0 (env.wEnd i)
                (env.wres i))
          = (List.range env.nWorkers).map (fun i =>
              (workerName i,
                match env.wres i with
                | Except.ok r => extract_output_text r
                | Except.error _ => "")) := by
      apply List.map_congr_left
      intro i _
      cases h : env.wres i <;> simp [finishWorker, h, Function.comp]
    rw [hmaps]
  · exact run_turn_synthInput env base

/-- C2, counterexample: the claimed equivalence "final answer is empty iff
the synthesis call failed" is false in the code: a synthesis call that
SUCCEEDS but whose response carries only whitespace content yields the
empty final answer with outcome succeeded (`_extract_output_text` trims
the joined chunks to ""). -/
theorem c2_counterexample :
    (run_turn envBlankSynth Tokens.zero).finalAnswer = ""
  ∧ (run_turn envBlankSynth Tokens.zero).synthState.ok = some true := by
  refine ⟨by decide, by decide⟩

/-- C2, amended: `run_turn` always returns normally (the embedding is a
total function; every failure is caught inside the turn); if the synthesis
call failed after retry exhaustion the final answer is the empty string
and the synthesis TaskState is failed with its error detail populated by
the failure message; conversely a non-empty final answer implies the
synthesis call succeeded (but a succeeded synthesis whose extracted text
is empty also returns the empty string, so emptiness alone does not imply
failure). -/
theorem c2_amended_empty_answer (env : TurnEnv) (base : Tokens) :
    (∀ e : Err, env.sres = Except.error e →
        (run_turn env base).finalAnswer = ""
      ∧ (run_turn env base).synthState.ok = some false
      ∧ (run_turn env base).synthState.error = some e.msg)
  ∧ ((run_turn env base).finalAnswer ≠ ""
      → (run_turn env base).synthState.ok = some true) := by
  rw [run_turn_finalAnswer, run_turn_synthState]
  cases h : env.sres with
  | ok r =>
    refine ⟨fun e he => Except.noConfusion he, fun _ => ?_⟩
    simp [finishSynth]
  | error e0 =>
    refine ⟨fun e he => ?_, fun hne => ?_⟩
    · injection he with he0
      subst he0
      simp [finishSynth]
    · exact absurd (by simp [finishSynth]) hne

/-- C2, witness: in a concrete turn whose synthesis call fails, the final
answer is "" and the synthesis state is failed with populated error. -/
theorem c2_witness :
    (run_turn envSynthFail Tokens.zero).finalAnswer = ""
  ∧ (run_turn envSynthFail Tokens.zero).synthState.ok = some false
  ∧ (run_turn envSynthFail Tokens.zero).synthState.error = some errBoom.msg :=
  (c2_amended_empty_answer envSynthFail Tokens.zero).1 errBoom rfl

/-- C3: for any worker count N ≥ 1, when `run_turn` returns there are
exactly N worker TaskStates, every one of them is terminal (outcome
succeeded or failed, never pending), and the synthesis TaskState is
terminal as well. -/
theorem c3_all_terminal_at_return (env : TurnEnv) (base : Tokens)
    (_h : 1 ≤ env.nWorkers) :
    (run_turn env base).states.length = env.nWorkers
  ∧ (∀ s ∈ (run_turn env base).states,
        s.ok = some true ∨ s.ok = some false)
  ∧ ((run_turn env base).synthState.ok = some true
      ∨ (run_turn env base).synthState.ok = some false) := by
  refine ⟨?_, ?_, ?_⟩
  · rw [run_turn_states]
    simp
  · rw [run_turn_states]
    intro s hs
    obtain ⟨i, _, rfl⟩ := List.mem_map.mp hs
    cases h2 : env.wres i <;> simp [finishWorker, h2]
  · rw [run_turn_synthState]
    cases h2 : env.sres <;> simp [finishSynth, h2]

/-- C3, witness: the guarantee instantiated at a concrete 4-worker turn. -/
theorem c3_witness :
    (run_turn envC1 Tokens.zero).states.length = envC1.nWorkers
  ∧ (∀ s ∈ (run_turn envC1 Tokens.zero).states,
        s.ok = some true ∨ s.ok = some false)
  ∧ ((run_turn envC1 Tokens.zero).synthState.ok = some true
      ∨ (run_turn envC1 Tokens.zero).synthState.ok = some false) :=
  c3_all_terminal_at_return envC1 Tokens.zero (by decide)

/-- C4: for every retry the computed delay is at least the configured base
delay; it is at least any parsable non-empty Retry-After server hint; a
text hint "try again in Xs" (case-insensitive) is rounded up to the next
whole second and the delay is at least that ceiling; every delay the retry
engine records is at least the base delay; and concretely a failure
message containing "try again in 12.4s" yields delay 13 ≥ 13 under a
configured base delay of 5 seconds. -/
theorem c4_delay_dominates_hints (base : ℚ) (e : Err) :
    base ≤ computeDelay base e
  ∧ (∀ (ra : String) (v : SignedDec), e.retryAfter = some ra →
        parseFloat? ra = some v → v.toRat ≤ computeDelay base e)
  ∧ (∀ q : DecNum, parseTryAgain e.msg = some q →
        q.toRat ≤ (↑(⌈q.toRat⌉ : ℤ) : ℚ)
      ∧ (↑(⌈q.toRat⌉ : ℤ) : ℚ) ≤ computeDelay base e)
  ∧ (∀ (m : Nat) (att : Nat → Except Err Resp) (d : ℚ),
        d ∈ (request_with_retries m base att).stats.delays → base ≤ d)
  ∧ computeDelay 5 ⟨"Rate limit reached. Please try again in 12.4s.", none⟩ = 13 := by
  refine ⟨base_le_computeDelay base e,
    fun ra v h1 h2 => serverHint_le_computeDelay base e ra v h1 h2,
    fun q hq => ⟨Int.le_ceil _, textHint_le_computeDelay base e q hq⟩,
    fun m att d hd => ?_, ?_⟩
  · rcases retryAux_delays_sound base att (m - 1) 1 false ⟨0, 0, []⟩ d hd with
      habs | ⟨i, e', _, rfl⟩
    · exact absurd habs (List.not_mem_nil d)
    · exact base_le_computeDelay base e'
  · have h : parseTryAgain "Rate limit reached. Please try again in 12.4s."
        = some ⟨12, 4, 1⟩ := by decide
    simp only [computeDelay, h]
    norm_num [DecNum.toRat]
    rw [show (⌈(62 / 5 : ℚ)⌉ : ℤ) = 13 by
      rw [Int.ceil_eq_iff]
      norm_num]
    norm_num

/-- C4, witness: the text-hint bound applied at the concrete message
"… try again in 12.4s." with base delay 5. -/
theorem c4_witness :
    DecNum.toRat ⟨12, 4, 1⟩ ≤ (↑(⌈DecNum.toRat ⟨12, 4, 1⟩⌉ : ℤ) : ℚ)
  ∧ (↑(⌈DecNum.toRat ⟨12, 4, 1⟩⌉ : ℤ) : ℚ)
      ≤ computeDelay 5 ⟨"Rate limit reached. Please try again in 12.4s.", none⟩ :=
  (c4_delay_dominates_hints 5
    ⟨"Rate limit reached. Please try again in 12.4s.", none⟩).2.2.1
    ⟨12, 4, 1⟩ (by decide)

/-- Supporting fact for C5: the computed delay is unbounded — for every
candidate ceiling there is a failure whose text hint drives the computed
delay above it (with the default base delay of 5 seconds), so no finite
`delay_ceiling` can bound the retry engine's delays. -/
theorem computeDelay_unbounded :
    ∀ ceil : ℚ, ∃ e : Err, ceil < computeDelay 5 e := by
  intro C
  obtain ⟨n, hn⟩ := exists_nat_gt C
  refine ⟨⟨⟨ninesMsg (n + 1)⟩, none⟩, ?_⟩
  have hp := parseTryAgain_nines n
  have hceil := textHint_le_computeDelay 5 ⟨⟨ninesMsg (n + 1)⟩, none⟩
    ⟨digitsToNat (List.replicate (n + 1) '9'), 0, 0⟩ hp
  rw [toRat_intOnly, Int.ceil_natCast] at hceil
  have hd : (n : ℚ) < (digitsToNat (List.replicate (n + 1) '9') : ℚ) := by
    have h1 := le_digitsToNat_nines (n + 1)
    exact_mod_cast lt_of_lt_of_le (Nat.lt_succ_self n) h1
  have hcast : (digitsToNat (List.replicate (n + 1) '9') : ℚ)
      ≤ computeDelay 5 ⟨⟨ninesMsg (n + 1)⟩, none⟩ := by
    exact_mod_cast hceil
  linarith

/-- C5, counterexample: the code computes
`delay = max(base, server_hint, ceil(text_hint))` with NO ceiling clamp.
The policy carries no `delay_ceiling` field; the only delay-related bound
on the configuration surface is 60 (the maximum configurable base delay),
and a failure whose message hints "try again in 100000s" yields a computed
delay of 100000 seconds, far above it (see `computeDelay_unbounded` for
the general fact that no finite ceiling bounds the computed delay). -/
theorem c5_counterexample :
    computeDelay 5 ⟨"Rate limited. Please try again in 100000s.", none⟩
        = 100000
  ∧ ¬ (computeDelay 5 ⟨"Rate limited. Please try again in 100000s.", none⟩
        ≤ 60) := by
  have hp : parseTryAgain "Rate limited. Please try again in 100000s."
      = some ⟨100000, 0, 0⟩ := by decide
  have h1 : computeDelay 5
      ⟨"Rate limited. Please try again in 100000s.", none⟩ = 100000 := by
    simp only [computeDelay, hp, toRat_intOnly, Int.ceil_natCast]
    push_cast
    norm_num
  refine ⟨h1, by rw [h1]; norm_num⟩

/-- C5, amended: on every failure that leads to a retry, the recorded
delay equals `max(base_delay, server_hint, ceil(text_hint))` for that
failure (the value `computeDelay` embeds from the source); the base delay
acts as the floor (every recorded delay is ≥ base), and there is no
ceiling clamp. -/
theorem c5_amended_delay_formula (base : ℚ) (m : Nat)
    (att : Nat → Except Err Resp) (d : ℚ)
    (hd : d ∈ (request_with_retries m base att).stats.delays) :
    base ≤ d ∧ ∃ i e, att i = Except.error e ∧ d = computeDelay base e := by
  rcases retryAux_delays_sound base att (m - 1) 1 false ⟨0, 0, []⟩ d hd with
    habs | ⟨i, e, hi, rfl⟩
  · exact absurd habs (List.not_mem_nil d)
  · exact ⟨base_le_computeDelay base e, i, e, hi, rfl⟩

/-- C5, witness: in a 2-attempt run against an always-failing call, the
single recorded delay 5 is ≥ the base delay 5 and equals the computed
delay of its failure. -/
theorem c5_witness :
    (5 : ℚ) ≤ 5
  ∧ ∃ i e, attBoom i = Except.error e ∧ (5 : ℚ) = computeDelay 5 e :=
  c5_amended_delay_formula 5 2 attBoom 5 (by decide)

/-- C6: with max_attempts = 1 exactly one attempt is made, zero retries
are counted and zero backoff sleeps are recorded; and in general the
shared retry counter equals the number of attempts beyond the first — it
is incremented exactly once per retry attempt and never on a call's first
attempt. -/
theorem c6_retry_counter (base : ℚ) (att : Nat → Except Err Resp) :
    ((request_with_retries 1 base att).attemptsMade = 1
     ∧ (request_with_retries 1 base att).stats.retriesTotal = 0
     ∧ (request_with_retries 1 base att).stats.delays = [])
  ∧ (∀ m : Nat, (request_with_retries m base att).stats.retriesTotal + 1
      = (request_with_retries m base att).attemptsMade) := by
  constructor
  · unfold request_with_retries
    cases h : att 1 with
    | ok v => rw [retryAux_ok base att 1 (1 - 1) false ⟨0, 0, []⟩ v h]
              exact ⟨rfl, rfl, rfl⟩
    | error e => rw [retryAux_err_zero base att 1 false ⟨0, 0, []⟩ e h]
                 exact ⟨rfl, rfl, rfl⟩
  · intro m
    have h := retryAux_retries_attempts base att (m - 1) 1 false ⟨0, 0, []⟩
    simp only at h
    unfold request_with_retries
    omega

/-- C7: the per-turn token totals equal the per-field sum of the usage of
exactly those calls — workers and synthesis — that succeeded in the turn;
failed calls contribute zero. -/
theorem c7_tokens_from_succeeded (env : TurnEnv) (base : Tokens) :
    (run_turn env base).tokensTurn = succeeded_usage_sum env := by
  rw [run_turn_tokensTurn]
  unfold succeeded_usage_sum
  have hw := foldl_workerUsage env.wres (List.range env.nWorkers) Tokens.zero
  cases h : env.sres with
  | ok r => rw [hw]
  | error e => rw [hw, Tokens.add_zero]

/-- C8: running totals after a turn equal the running totals before the
turn plus that turn's per-turn totals by simple addition per field; and
across any sequence of turns the final running totals equal the initial
baseline plus the sum of every turn's totals — no double counting, no
loss. -/
theorem c8_running_totals_additive :
    (∀ (env : TurnEnv) (base : Tokens),
        (run_turn env base).runningAfter.input
            = base.input + (run_turn env base).tokensTurn.input
      ∧ (run_turn env base).runningAfter.output
            = base.output + (run_turn env base).tokensTurn.output
      ∧ (run_turn env base).runningAfter.total
            = base.total + (run_turn env base).tokensTurn.total)
  ∧ (∀ (base : Tokens) (envs : List TurnEnv),
        run_turns base envs
          = base.add ((envs.map turn_tokens).foldl Tokens.add Tokens.zero)) := by
  constructor
  · exact fun env base => ⟨rfl, rfl, rfl⟩
  · intro base envs
    induction envs generalizing base with
    | nil => simp [run_turns, Tokens.add_zero]
    | cons e l ih =>
      show run_turns ((run_turn e base).runningAfter) l = _
      rw [ih ((run_turn e base).runningAfter), run_turn_runningAfter,
        run_turn_tokensTurn_base_free, List.map_cons, tokens_sum_cons,
        Tokens.add_assoc]

/-- C9: along every observable snapshot sequence of a task's state (worker
or synthesizer), the end timestamp is set if and only if the outcome is
not pending; the outcome changes only out of pending and is frozen once
set (monotonic, single-shot); every stamped end time is ≥ the start time;
and when the task failed, the final state is failed with non-null error
detail and end timestamp. -/
theorem c9_state_invariants (name modelName : String) (t0 : ℚ) (k : Nat)
    (res : Except Err Resp) (t1 : ℚ) (h : t0 ≤ t1) :
    (∀ s ∈ worker_trace name modelName t0 k res t1,
        s.endedAt.isSome ↔ s.ok ≠ none)
  ∧ List.Chain' okStep (worker_trace name modelName t0 k res t1)
  ∧ (∀ s ∈ worker_trace name modelName t0 k res t1,
        ∀ te : ℚ, s.endedAt = some te → s.startedAt ≤ te)
  ∧ (∀ e : Err, res = Except.error e →
        (worker_trace name modelName t0 k res t1).getLast?
            = some (finishWorker name modelName t0 t1 res)
      ∧ (finishWorker name modelName t0 t1 res).ok = some false
      ∧ (finishWorker name modelName t0 t1 res).error = some e.msg
      ∧ (finishWorker name modelName t0 t1 res).endedAt = some t1) := by
  refine ⟨?_, ?_, ?_, ?_⟩
  · intro s hs
    rcases mem_worker_trace name modelName t0 k res t1 s hs with rfl | rfl
    · simp [pendingState]
    · cases res <;> simp [finishWorker]
  · exact chain_replicate_pending _ _ rfl (k + 1)
  · intro s hs te hte
    rcases mem_worker_trace name modelName t0 k res t1 s hs with rfl | rfl
    · cases hte
    · cases res <;> simp [finishWorker] at hte <;> rw [← hte] <;> exact h
  · intro e he
    subst he
    refine ⟨?_, by simp [finishWorker], by simp [finishWorker],
      by simp [finishWorker]⟩
    unfold worker_trace
    exact List.getLast?_concat _

/-- C9, witness: the invariants instantiated for a concrete failed worker
observed once while pending. -/
theorem c9_witness :
    List.Chain' okStep
      (worker_trace "Worker-1" "gpt-5" 0 0 (Except.error errBoom) 1) :=
  (c9_state_invariants "Worker-1" "gpt-5" 0 0 (Except.error errBoom) 1
    (by norm_num)).2.1

/-- C10: usage extraction and retry-hint parsing are total functions that
never raise: missing usage fields default to zero; an absent total is
computed as input + output; a usage object that raises on access yields
all-zero usage; and a malformed or absent retry hint (no parsable
Retry-After header, no matching "try again in Xs" text) leaves the delay
at the configured base delay. -/
theorem c10_malformed_data_defaults :
    (∀ i o : Option Int, extract_usage (UsageRaw.fields i o none)
        = ⟨i.getD 0, o.getD 0, i.getD 0 + o.getD 0⟩)
  ∧ extract_usage UsageRaw.missing = ⟨0, 0, 0⟩
  ∧ extract_usage UsageRaw.malformed = ⟨0, 0, 0⟩
  ∧ (∀ (base : ℚ) (msg : String), parseTryAgain msg = none →
        computeDelay base ⟨msg, none⟩ = base)
  ∧ (∀ (base : ℚ) (msg ra : String), parseTryAgain msg = none →
        parseFloat? ra = none → computeDelay base ⟨msg, some ra⟩ = base) := by
  refine ⟨fun i o => ?_, rfl, rfl, fun base msg hp => ?_, fun base msg ra hp hf => ?_⟩
  · simp [extract_usage]
  · simp only [computeDelay, hp]
  · by_cases hra : ra = ""
    · simp only [computeDelay, hp, hra]
      simp
    · simp only [computeDelay, hp, hf]
      simp [hra]

/-- C10, witness: concrete defaults — usage `(7, 8, absent)` extracts to
`(7, 8, 15)`, and an unparsable header together with a hint-free message
leaves the delay at the base delay 9. -/
theorem c10_witness :
    extract_usage (UsageRaw.fields (some 7) (some 8) none)
        = ⟨(some (7 : Int)).getD 0, (some (8 : Int)).getD 0,
           (some (7 : Int)).getD 0 + (some (8 : Int)).getD 0⟩
  ∧ computeDelay 9 ⟨"no hint present", some "unparsable"⟩ = 9 :=
  ⟨c10_malformed_data_defaults.1 (some 7) (some 8),
   c10_malformed_data_defaults.2.2.2.2 9 "no hint present" "unparsable"
     (by decide) (by decide)⟩

end MW
